import Mathlib

/-!
Verification development for the feed ingestion pipeline in `src/fetcher.py`
(class `FeedFetcher`).  Python strings are modelled as `List Char` (Python's
`len` counts code points, as `List.length` does); feedparser entries and the
HTTP outcome of one source are oracle inputs; machine effects (logging,
sleeping) are modelled only where observable (the inter-batch pause is
counted).  The seen-fingerprint store `NewsDatabase` lives outside `src/`;
it is modelled from the spec where noted.
-/

namespace Fetcher

/-- Python strings, as lists of code points. -/
abbrev Str := List Char

/-- A feedparser entry as `fetch_single_feed` / `extract_content` /
`parse_date` consume it.  `content` models the `content` attribute: a list of
items, each item's `.value` string; `none` everywhere means the attribute is
absent (`hasattr` false / `.get` miss).  `published_parsed` is the
`time.struct_time` tuple as a list of integers (`none` = attribute absent,
`some []` = attribute present but falsy, e.g. `None`). -/
structure Entry where
  content : Option (List Str)
  summary : Option Str
  description : Option Str
  title : Option Str
  link : Option Str
  published_parsed : Option (List Int)
deriving DecidableEq

/-- The result of `feedparser.parse`: the entry list in document order and
the feed-level title (`feed.feed.get('title')`). -/
structure Feed where
  entries : List Entry
  ftitle : Option Str
deriving DecidableEq

/-- `datetime` values as built by `datetime(*entry.published_parsed[:6])`. -/
structure DateTime where
  year : Int
  month : Int
  day : Int
  hour : Int
  minute : Int
  second : Int
deriving DecidableEq

/-- The `Article` record constructed in `fetch_single_feed`
(`src/core/models.Article`; fields per the construction site and §3 of the
design). -/
structure Article where
  title : Str
  content : Str
  url : Str
  published : DateTime
  source : Str
deriving DecidableEq

/-- Gregorian leap year, as Python's `datetime` validates it. -/
def isLeap (y : Int) : Bool :=
  (y % 4 == 0 && y % 100 != 0) || y % 400 == 0

/-- Days in a month, as Python's `datetime` validates `day`. -/
def daysInMonth (y m : Int) : Int :=
  if m = 2 then (if isLeap y then 29 else 28)
  else if m = 4 ∨ m = 6 ∨ m = 9 ∨ m = 11 then 30
  else 31

/-- The argument ranges `datetime(y, m, d, hh, mi, s)` accepts without
raising `ValueError`. -/
def validDate (y m d hh mi s : Int) : Bool :=
  1 ≤ y && y ≤ 9999 && 1 ≤ m && m ≤ 12 && 1 ≤ d && d ≤ daysInMonth y m &&
  0 ≤ hh && hh ≤ 23 && 0 ≤ mi && mi ≤ 59 && 0 ≤ s && s ≤ 59

/-- `datetime(*t)` on a tuple of at most six integers: `none` models the
`TypeError` (fewer than three arguments) or `ValueError` (out of range)
that the bare `except` in `parse_date` absorbs. -/
def mkDatetime (t : List Int) : Option DateTime :=
  match t with
  | [y, m, d] =>
      if validDate y m d 0 0 0 then some ⟨y, m, d, 0, 0, 0⟩ else none
  | [y, m, d, hh] =>
      if validDate y m d hh 0 0 then some ⟨y, m, d, hh, 0, 0⟩ else none
  | [y, m, d, hh, mi] =>
      if validDate y m d hh mi 0 then some ⟨y, m, d, hh, mi, 0⟩ else none
  | [y, m, d, hh, mi, s] =>
      if validDate y m d hh mi s then some ⟨y, m, d, hh, mi, s⟩ else none
  | _ => none

/-- `FeedFetcher.parse_date`: build a `datetime` from the first six fields of
`published_parsed` when the attribute is present and truthy; on absence, a
falsy value, or any constructor fault (caught by the bare `except`), fall
back to `datetime.now()`, passed here as `now`. -/
def parse_date (e : Entry) (now : DateTime) : DateTime :=
  match e.published_parsed with
  | none => now
  | some t =>
      if t.isEmpty then now
      else
        match mkDatetime (t.take 6) with
        | some dt => dt
        | none => now

/-- Python `str.isspace` characters relevant to `str.strip()` (ASCII). -/
def pyIsSpace (c : Char) : Bool :=
  c = ' ' || c = '\t' || c = '\n' || c = '\x0b' || c = '\x0c' || c = '\r'

/-- Python `str.strip()`: drop leading and trailing whitespace. -/
def pyStrip (s : Str) : Str :=
  ((s.dropWhile pyIsSpace).reverse.dropWhile pyIsSpace).reverse

mutual

/-- Left-to-right scan of `re.sub(r'<[^>]+>', '', s)`: outside any tag,
characters are kept; a `<` opens a candidate tag. -/
def stripTags : Str → Str
  | [] => []
  | c :: rest => if c = '<' then inTag rest [c] else c :: stripTags rest

/-- Inside a candidate tag opened by `<`; `buf` holds the consumed
characters in reverse.  A `>` after at least one non-`>` character closes
and deletes the tag (the regex needs `[^>]+`); a `>` immediately after `<`
fails the match, so `<>` is kept; end of input inside a candidate emits the
consumed characters unchanged (no `>` follows, so no later match can start
inside them). -/
def inTag : Str → Str → Str
  | [], buf => buf.reverse
  | c :: rest, buf =>
      if c = '>' then
        if 2 ≤ buf.length then stripTags rest
        else buf.reverse ++ '>' :: stripTags rest
      else inTag rest (c :: buf)

end

/-- The cleaning applied by `extract_content`:
`re.sub(r'<[^>]+>', '', content).strip()`. -/
def clean (s : Str) : Str := pyStrip (stripTags s)

/-- `FeedFetcher.extract_content`.  Fields are tried in the order
`content`, `summary`, `description`; the loop breaks at the first field the
entry has.  For `content`, a truthy (non-empty) list yields its first item's
`.value`; a present-but-falsy `content` leaves the list itself bound, so
`re.sub` receives a list and raises `TypeError`, modelled as
`Except.error ()`. -/
def extract_content (e : Entry) : Except Unit Str :=
  match e.content with
  | some (v :: _) => Except.ok (clean v)
  | some [] => Except.error ()
  | none =>
      match e.summary with
      | some s => Except.ok (clean s)
      | none =>
          match e.description with
          | some d => Except.ok (clean d)
          | none => Except.ok (clean [])

/-- The extraction policy in the spec's words (§4.1): take the first of
`content`, `summary`, `description` that is present and non-absent (first
match wins, no merging), strip tags and surrounding whitespace, and return
empty text when none is present.  Used only to compare `extract_content`
against the specified policy. -/
def specExtract (e : Entry) : Str :=
  match e.content with
  | some (v :: _) => clean v
  | _ =>
      match e.summary with
      | some s => clean s
      | none =>
          match e.description with
          | some d => clean d
          | none => clean []

/-- Modelled from the spec: the seen-fingerprint store (`NewsDatabase` in
`src/data/database.py`, not under `src/`).  §4.3: `isDuplicate fp` is true
iff `fp` has been recorded by a prior `record`; modelled as a list of
recorded fingerprints queried by membership. -/
abbrev Db := List Nat

/-- Modelled from the spec: `NewsDatabase.is_duplicate` — has this
fingerprint been recorded before (this cycle or earlier)? -/
def is_duplicate (db : Db) (fp : Nat) : Bool := decide (fp ∈ db)

/-- Modelled from the spec: `NewsDatabase.cache_article` — record a
fingerprint as seen. -/
def cache_article (db : Db) (fp : Nat) : Db := fp :: db

/-- The ambient configuration and effects consumed by `FeedFetcher`:
`CONFIG["processing"]["max_articles_per_feed"]`,
`CONFIG["processing"]["min_article_length"]`, the content fingerprint
(`hashlib.md5(content.encode()).hexdigest()`, an abstract deterministic
digest of the content), and the wall clock read by `datetime.now()`. -/
structure Ctx where
  maxArticles : Nat
  minLen : Nat
  hash : Str → Nat
  now : DateTime

/-- The `Article(...)` construction site in `fetch_single_feed`:
`entry.get('title', '')`, the extracted content, `entry.get('link', '')`,
`parse_date(entry)`, and `feed.feed.get('title', feed_url)`. -/
def mkArticle (ctx : Ctx) (u : Str) (f : Feed) (e : Entry) (c : Str) : Article :=
  { title := e.title.getD []
    content := c
    url := e.link.getD []
    published := parse_date e ctx.now
    source := f.ftitle.getD u }

/-- The entry loop of `fetch_single_feed`, started at `fetched_count = n`
with dedup store `db`.  Returns the accepted articles (or `Except.error`
when an entry raised, the articles collected so far being discarded by the
outer handler), the dedup store after all `cache_article` calls made before
returning, and the final `fetched_count`. -/
def procEntries (ctx : Ctx) (u : Str) (f : Feed) :
    List Entry → Nat → Db → Except Unit (List Article) × Db × Nat
  | [], n, db => (Except.ok [], db, n)
  | e :: es, n, db =>
    if ctx.maxArticles ≤ n then (Except.ok [], db, n)
    else
      match extract_content e with
      | Except.error u' => (Except.error u', db, n)
      | Except.ok c =>
        if c.length < ctx.minLen then
          procEntries ctx u f es n db
        else if is_duplicate db (ctx.hash c) then
          procEntries ctx u f es n db
        else
          match procEntries ctx u f es (n + 1) (cache_article db (ctx.hash c)) with
          | (Except.ok arts, db', n') =>
              (Except.ok (mkArticle ctx u f e c :: arts), db', n')
          | (Except.error u', db', n') => (Except.error u', db', n')

/-- The possible failures of one source's fetch: `aiohttp.ClientError`
(connection, timeout, `raise_for_status` on non-2xx) or the general
`Exception` raised before the entry loop starts. -/
inductive FetchErr where
  | clientError
  | generalError
deriving DecidableEq

deriving instance DecidableEq for Except

/-- `FeedFetcher.fetch_single_feed`, with the HTTP-fetch-and-parse outcome
as an oracle input: a failed request or pre-loop fault yields `([], db)`
(both handlers return `[]`); a parsed feed runs the entry loop, and an
in-loop fault (see `extract_content`) is absorbed by the general handler,
returning `[]` while keeping the dedup records made before the fault. -/
def fetch_single_feed (ctx : Ctx) (u : Str) (outcome : Except FetchErr Feed)
    (db : Db) : List Article × Db :=
  match outcome with
  | Except.error _ => ([], db)
  | Except.ok f =>
      match procEntries ctx u f f.entries 0 db with
      | (Except.ok arts, db', _) => (arts, db')
      | (Except.error _, db', _) => ([], db')

/-- One source as the batch coordinator sees it: its URL and the oracle
outcome of fetching and parsing it. -/
structure SourceInput where
  url : Str
  outcome : Except FetchErr Feed
deriving DecidableEq

/-- The sources of one batch processed in source order, threading the dedup
store; yields each source's article list, in order.  Sources in a batch run
under `asyncio.gather` on one event loop, and the entry loop has no await
point, so each source's processing is atomic and `gather` returns results
in task order; completion is modelled in source order. -/
def seqFetch (ctx : Ctx) : List SourceInput → Db → List (List Article) × Db
  | [], db => ([], db)
  | s :: ss, db =>
      let r := fetch_single_feed ctx s.url s.outcome db
      let rest := seqFetch ctx ss r.2
      (r.1 :: rest.1, rest.2)

/-- The batch loop of `fetch_feeds_batch` for batch size `k + 1`
(`for i in range(0, len(feeds), batch_size)`): process `feeds[i:i+bs]`,
extend the output with every list result, and sleep only when
`i + batch_size < len(feeds)`.  Returns the accumulated articles, the final
dedup store, and the number of inter-batch pauses. -/
def batchLoop (ctx : Ctx) (k : Nat) :
    List SourceInput → Db → List Article × Db × Nat
  | [], db => ([], db, 0)
  | s :: ss, db =>
      let b := seqFetch ctx ((s :: ss).take (k + 1)) db
      let rest := (s :: ss).drop (k + 1)
      if rest.isEmpty then (b.1.flatten, b.2, 0)
      else
        let r := batchLoop ctx k rest b.2
        (b.1.flatten ++ r.1, r.2.1, r.2.2 + 1)
  termination_by l => l.length
  decreasing_by
    simp only [List.length_drop, List.length_cons]
    omega

/-- The contiguous batches `feeds[0:bs], feeds[bs:2*bs], ...` for batch
size `k + 1`. -/
def batchesOf (k : Nat) : List SourceInput → List (List SourceInput)
  | [] => []
  | s :: ss => (s :: ss).take (k + 1) :: batchesOf k ((s :: ss).drop (k + 1))
  termination_by l => l.length
  decreasing_by
    simp only [List.length_drop, List.length_cons]
    omega

/-- `FeedFetcher.fetch_feeds_batch` on an already-loaded source list.
`range(0, n, 0)` raises `ValueError`, so batch size `0` is `none`; otherwise
the batch loop runs.  Result: accepted articles in source order, the final
dedup store, and the inter-batch pause count. -/
def fetch_feeds_batch (ctx : Ctx) (sources : List SourceInput) (bs : Nat)
    (db : Db) : Option (List Article × Db × Nat) :=
  match bs with
  | 0 => none
  | k + 1 => some (batchLoop ctx k sources db)

/-- The article an entry would yield if accepted: its extracted content, if
extraction does not raise, packaged by the `Article(...)` construction
site.  Accepted articles are drawn from this list in document order. -/
def entryArticle (ctx : Ctx) (u : Str) (f : Feed) (e : Entry) : Option Article :=
  match extract_content e with
  | Except.ok c => some (mkArticle ctx u f e c)
  | Except.error _ => none

/-! ### Concrete sample data, used for concrete runs of the model -/

/-- A small deterministic stand-in for the md5 content fingerprint in
concrete computations (only determinism and equality are relied on). -/
def sampleHash (s : Str) : Nat := s.foldl (fun a c => a * 256 + c.toNat) 1

/-- Concrete configuration: cap 2 articles per feed, minimum length 5. -/
def ctx0 : Ctx :=
  { maxArticles := 2, minLen := 5, hash := sampleHash,
    now := ⟨2024, 1, 1, 0, 0, 0⟩ }

/-- An entry carrying only a summary and a title. -/
def sumEntry (s : Str) : Entry :=
  { content := none, summary := some s, description := none,
    title := some ("T".toList), link := none, published_parsed := none }

def goodEntryA : Entry := sumEntry ("Hello world".toList)

def goodEntryB : Entry := sumEntry ("Another body".toList)

def goodEntryC : Entry := sumEntry ("Third long body".toList)

def shortEntry : Entry := sumEntry ("abc".toList)

/-- Content exactly at the threshold length 5 after tag stripping. -/
def boundaryEntry : Entry := sumEntry ("<b>12345</b>".toList)

/-- The `content` attribute is present but holds an empty list. -/
def poisonEntry : Entry :=
  { content := some [], summary := none, description := none, title := none,
    link := none, published_parsed := none }

/-- An entry with only a `description`. -/
def descEntry : Entry :=
  { content := none, summary := none,
    description := some ("A described body".toList), title := none,
    link := none, published_parsed := none }

def dateEntry : Entry :=
  { content := none, summary := none, description := none, title := none,
    link := none, published_parsed := some [2024, 3, 15, 10, 30, 7, 4, 75, 0] }

def badDateEntry : Entry :=
  { content := none, summary := none, description := none, title := none,
    link := none, published_parsed := some [2024, 13, 15] }

def e5 : Entry :=
  { content := some [], summary := some ("A summary of decent length".toList),
    description := none, title := none, link := none,
    published_parsed := none }

def u0 : Str := "http://a.example/rss".toList

def feedA : Feed :=
  { entries := [shortEntry, goodEntryA, goodEntryA, goodEntryB],
    ftitle := some ("Feed A".toList) }

def feedB : Feed := { entries := [goodEntryA, goodEntryC], ftitle := none }

def poisonFeed : Feed :=
  { entries := [goodEntryA, poisonEntry, goodEntryB], ftitle := none }

def srcA : SourceInput := { url := u0, outcome := Except.ok feedA }

def srcB : SourceInput :=
  { url := "http://b.example/rss".toList, outcome := Except.ok feedB }

def srcErr : SourceInput :=
  { url := "http://c.example/rss".toList,
    outcome := Except.error FetchErr.clientError }

def srcs7 : List SourceInput :=
  [srcErr, srcErr, srcErr, srcErr, srcErr, srcErr, srcErr]

/-! ### Lemmas about the entry loop -/

/-- Once `fetched_count` has reached the cap, the loop breaks at once:
nothing is returned, recorded, or counted, whatever entries remain. -/
theorem procEntries_stop (ctx : Ctx) (u : Str) (f : Feed) (es : List Entry)
    (n : Nat) (db : Db) (h : ctx.maxArticles ≤ n) :
    procEntries ctx u f es n db = (Except.ok [], db, n) := by
  cases es with
  | nil => rfl
  | cons e es => simp [procEntries, h]

/-- The dedup store only grows during the entry loop. -/
theorem procEntries_mono (ctx : Ctx) (u : Str) (f : Feed) :
    ∀ (es : List Entry) (n : Nat) (db : Db) (fp : Nat),
      fp ∈ db → fp ∈ (procEntries ctx u f es n db).2.1 := by
  intro es
  induction es with
  | nil => intro n db fp hfp; simpa [procEntries] using hfp
  | cons e es ih =>
    intro n db fp hfp
    by_cases hcap : ctx.maxArticles ≤ n
    · simpa [procEntries, hcap] using hfp
    · cases hx : extract_content e with
      | error u' => simpa [procEntries, hcap, hx] using hfp
      | ok c =>
        by_cases hlen : c.length < ctx.minLen
        · simpa [procEntries, hcap, hx, hlen] using ih n db fp hfp
        · by_cases hdup : is_duplicate db (ctx.hash c)
          · simpa [procEntries, hcap, hx, hlen, hdup] using ih n db fp hfp
          · have hmem : fp ∈ cache_article db (ctx.hash c) := by
              simp [cache_article]
              exact Or.inr hfp
            have h2 := ih (n + 1) (cache_article db (ctx.hash c)) fp hmem
            rcases hr : procEntries ctx u f es (n + 1) (cache_article db (ctx.hash c))
              with ⟨r, db', n'⟩
            rw [hr] at h2
            cases r with
            | ok arts => simpa [procEntries, hcap, hx, hlen, hdup, hr] using h2
            | error u' => simpa [procEntries, hcap, hx, hlen, hdup, hr] using h2

/-- Soundness of a non-raising pass of the entry loop: every accepted
article passed the length filter against `min_article_length`, its
fingerprint was unseen when it was accepted and is recorded on return, the
accepted fingerprints are pairwise distinct, the final `fetched_count`
counts the accepted articles, and the count respects the cap. -/
theorem procEntries_ok_spec (ctx : Ctx) (u : Str) (f : Feed) :
    ∀ (es : List Entry) (n : Nat) (db : Db) (arts : List Article) (db' : Db)
      (n' : Nat), procEntries ctx u f es n db = (Except.ok arts, db', n') →
      (∀ a ∈ arts, ctx.minLen ≤ a.content.length ∧ ctx.hash a.content ∉ db ∧
        ctx.hash a.content ∈ db') ∧
      arts.Pairwise (fun a b => ctx.hash a.content ≠ ctx.hash b.content) ∧
      n' = n + arts.length ∧ arts.length ≤ ctx.maxArticles - n := by
  intro es
  induction es with
  | nil =>
    intro n db arts db' n' h
    simp only [procEntries, Prod.mk.injEq, Except.ok.injEq] at h
    obtain ⟨h1, h2, h3⟩ := h
    subst h1; subst h2; subst h3
    simp
  | cons e es ih =>
    intro n db arts db' n' h
    by_cases hcap : ctx.maxArticles ≤ n
    · simp only [procEntries, if_pos hcap, Prod.mk.injEq, Except.ok.injEq] at h
      obtain ⟨h1, h2, h3⟩ := h
      subst h1; subst h2; subst h3
      simp
    · cases hx : extract_content e with
      | error u' => simp [procEntries, hcap, hx] at h
      | ok c =>
        by_cases hlen : c.length < ctx.minLen
        · rw [show procEntries ctx u f (e :: es) n db =
              procEntries ctx u f es n db by
            simp [procEntries, hcap, hx, hlen]] at h
          exact ih n db arts db' n' h
        · by_cases hdup : is_duplicate db (ctx.hash c)
          · rw [show procEntries ctx u f (e :: es) n db =
                procEntries ctx u f es n db by
              simp [procEntries, hcap, hx, hlen, hdup]] at h
            exact ih n db arts db' n' h
          · rcases hr : procEntries ctx u f es (n + 1) (cache_article db (ctx.hash c))
              with ⟨r, dbr, nr⟩
            cases r with
            | error u' =>
              rw [show procEntries ctx u f (e :: es) n db =
                  (Except.error u', dbr, nr) by
                simp [procEntries, hcap, hx, hlen, hdup, hr]] at h
              simp at h
            | ok arts' =>
              rw [show procEntries ctx u f (e :: es) n db =
                  (Except.ok (mkArticle ctx u f e c :: arts'), dbr, nr) by
                simp [procEntries, hcap, hx, hlen, hdup, hr]] at h
              simp only [Prod.mk.injEq, Except.ok.injEq] at h
              obtain ⟨h1, h2, h3⟩ := h
              subst h2; subst h3
              obtain ⟨hall, hpw, hcount, hle⟩ :=
                ih (n + 1) (cache_article db (ctx.hash c)) arts' dbr nr hr
              subst h1
              have hnotdup : ctx.hash c ∉ db := by
                simpa [is_duplicate] using hdup
              have hinrec : ctx.hash c ∈ dbr := by
                have hm := procEntries_mono ctx u f es (n + 1)
                  (cache_article db (ctx.hash c)) (ctx.hash c)
                  (by simp [cache_article])
                rwa [hr] at hm
              refine ⟨?_, ?_, ?_, ?_⟩
              · intro a ha
                rcases List.mem_cons.mp ha with rfl | ha'
                · refine ⟨?_, hnotdup, hinrec⟩
                  simpa [mkArticle] using Nat.le_of_not_lt hlen
                · obtain ⟨l1, l2, l3⟩ := hall a ha'
                  refine ⟨l1, ?_, l3⟩
                  intro hin
                  apply l2
                  simp [cache_article]
                  exact Or.inr hin
              · refine List.pairwise_cons.mpr ⟨?_, hpw⟩
                intro a ha heq
                simp only [mkArticle] at heq
                apply (hall a ha).2.1
                simp [cache_article]
                exact Or.inl heq.symm
              · simp only [List.length_cons]
                omega
              · simp only [List.length_cons]
                omega

/-- Splitting the entry list: the loop processes `xs` and, provided it did
not raise, continues through `ys` from the state `xs` left behind; an
exception while in `xs` discards `ys` entirely. -/
theorem procEntries_append (ctx : Ctx) (u : Str) (f : Feed) :
    ∀ (xs ys : List Entry) (n : Nat) (db : Db),
      procEntries ctx u f (xs ++ ys) n db =
        match procEntries ctx u f xs n db with
        | (Except.ok as, db', n') =>
            match procEntries ctx u f ys n' db' with
            | (Except.ok bs, db'', n'') => (Except.ok (as ++ bs), db'', n'')
            | (Except.error u', db'', n'') => (Except.error u', db'', n'')
        | (Except.error u', db', n') => (Except.error u', db', n') := by
  intro xs
  induction xs with
  | nil =>
    intro ys n db
    rcases hy : procEntries ctx u f ys n db with ⟨r, db', n'⟩
    cases r with
    | ok bs => simp [procEntries, hy]
    | error u' => simp [procEntries, hy]
  | cons e xs ih =>
    intro ys n db
    by_cases hcap : ctx.maxArticles ≤ n
    · rw [List.cons_append, procEntries_stop ctx u f _ n db hcap,
        procEntries_stop ctx u f _ n db hcap]
      simp [procEntries_stop ctx u f ys n db hcap]
    · cases hx : extract_content e with
      | error u' => simp [procEntries, hcap, hx]
      | ok c =>
        by_cases hlen : c.length < ctx.minLen
        · simpa [procEntries, hcap, hx, hlen] using ih ys n db
        · by_cases hdup : is_duplicate db (ctx.hash c)
          · simpa [procEntries, hcap, hx, hlen, hdup] using ih ys n db
          · have hih := ih ys (n + 1) (cache_article db (ctx.hash c))
            rcases hxr : procEntries ctx u f xs (n + 1)
              (cache_article db (ctx.hash c)) with ⟨r, dbx, nx⟩
            rw [hxr] at hih
            cases r with
            | error u' =>
              simp only [] at hih
              simp [procEntries, hcap, hx, hlen, hdup, hih, hxr]
            | ok as =>
              simp only [] at hih
              rcases hyr : procEntries ctx u f ys nx dbx with ⟨ry, dby, ny⟩
              rw [hyr] at hih
              cases ry with
              | error u' =>
                simp only [] at hih
                simp [procEntries, hcap, hx, hlen, hdup, hih, hxr, hyr]
              | ok bs =>
                simp only [] at hih
                simp [procEntries, hcap, hx, hlen, hdup, hih, hxr, hyr]

/-- Accepted articles come from the entries, in document order: a
non-raising pass yields a sublist of the per-entry candidate articles. -/
theorem procEntries_sublist (ctx : Ctx) (u : Str) (f : Feed) :
    ∀ (es : List Entry) (n : Nat) (db : Db) (arts : List Article) (db' : Db)
      (n' : Nat), procEntries ctx u f es n db = (Except.ok arts, db', n') →
      arts.Sublist (es.filterMap (entryArticle ctx u f)) := by
  intro es
  induction es with
  | nil =>
    intro n db arts db' n' h
    simp only [procEntries, Prod.mk.injEq, Except.ok.injEq] at h
    simp [← h.1]
  | cons e es ih =>
    intro n db arts db' n' h
    by_cases hcap : ctx.maxArticles ≤ n
    · simp only [procEntries, if_pos hcap, Prod.mk.injEq, Except.ok.injEq] at h
      simp [← h.1]
    · cases hx : extract_content e with
      | error u' => simp [procEntries, hcap, hx] at h
      | ok c =>
        have hcand : entryArticle ctx u f e = some (mkArticle ctx u f e c) := by
          simp [entryArticle, hx]
        by_cases hlen : c.length < ctx.minLen
        · rw [show procEntries ctx u f (e :: es) n db =
              procEntries ctx u f es n db by
            simp [procEntries, hcap, hx, hlen]] at h
          have hs := ih n db arts db' n' h
          simp only [List.filterMap_cons, hcand]
          exact hs.cons _
        · by_cases hdup : is_duplicate db (ctx.hash c)
          · rw [show procEntries ctx u f (e :: es) n db =
                procEntries ctx u f es n db by
              simp [procEntries, hcap, hx, hlen, hdup]] at h
            have hs := ih n db arts db' n' h
            simp only [List.filterMap_cons, hcand]
            exact hs.cons _
          · rcases hr : procEntries ctx u f es (n + 1)
              (cache_article db (ctx.hash c)) with ⟨r, dbr, nr⟩
            cases r with
            | error u' =>
              rw [show procEntries ctx u f (e :: es) n db =
                  (Except.error u', dbr, nr) by
                simp [procEntries, hcap, hx, hlen, hdup, hr]] at h
              simp at h
            | ok arts' =>
              rw [show procEntries ctx u f (e :: es) n db =
                  (Except.ok (mkArticle ctx u f e c :: arts'), dbr, nr) by
                simp [procEntries, hcap, hx, hlen, hdup, hr]] at h
              simp only [Prod.mk.injEq, Except.ok.injEq] at h
              have hs := ih (n + 1) (cache_article db (ctx.hash c)) arts' dbr nr hr
              rw [← h.1]
              simp only [List.filterMap_cons, hcand]
              exact hs.cons₂ _

/-! ### Lemmas about one source and the batch loop -/

/-- Soundness of one source's fetch, whatever its outcome: the dedup store
only grows, every returned article passed the length filter, carried a
fingerprint unseen on entry and recorded on exit, returned fingerprints are
pairwise distinct, and the count respects the per-feed cap. -/
theorem fetch_single_feed_spec (ctx : Ctx) (u : Str) (o : Except FetchErr Feed)
    (db : Db) :
    (∀ fp, fp ∈ db → fp ∈ (fetch_single_feed ctx u o db).2) ∧
    (∀ a ∈ (fetch_single_feed ctx u o db).1,
        ctx.minLen ≤ a.content.length ∧ ctx.hash a.content ∉ db ∧
        ctx.hash a.content ∈ (fetch_single_feed ctx u o db).2) ∧
    (fetch_single_feed ctx u o db).1.Pairwise
      (fun a b => ctx.hash a.content ≠ ctx.hash b.content) ∧
    (fetch_single_feed ctx u o db).1.length ≤ ctx.maxArticles := by
  cases o with
  | error err => simp [fetch_single_feed]
  | ok f =>
    rcases hr : procEntries ctx u f f.entries 0 db with ⟨r, db', n'⟩
    have hmono := procEntries_mono ctx u f f.entries 0 db
    cases r with
    | error u' =>
      have heq : fetch_single_feed ctx u (Except.ok f) db = ([], db') := by
        simp [fetch_single_feed, hr]
      rw [heq]
      refine ⟨?_, by simp, by simp, by simp⟩
      intro fp hfp
      have hm := hmono fp hfp
      rwa [hr] at hm
    | ok arts =>
      have heq : fetch_single_feed ctx u (Except.ok f) db = (arts, db') := by
        simp [fetch_single_feed, hr]
      obtain ⟨hall, hpw, hcnt, hle⟩ :=
        procEntries_ok_spec ctx u f f.entries 0 db arts db' n' hr
      rw [heq]
      refine ⟨?_, hall, hpw, ?_⟩
      · intro fp hfp
        have hm := hmono fp hfp
        rwa [hr] at hm
      · simpa using hle

/-- `fetch_single_feed` on a failed HTTP fetch or a pre-loop fault: the
handlers return the empty list and the dedup store is untouched. -/
theorem fetch_single_feed_error (ctx : Ctx) (u : Str) (err : FetchErr)
    (db : Db) : fetch_single_feed ctx u (Except.error err) db = ([], db) := rfl

/-- Splitting a source list: the second half is processed from the dedup
store the first half left behind. -/
theorem seqFetch_append (ctx : Ctx) :
    ∀ (xs ys : List SourceInput) (db : Db),
      seqFetch ctx (xs ++ ys) db =
        ((seqFetch ctx xs db).1 ++ (seqFetch ctx ys (seqFetch ctx xs db).2).1,
         (seqFetch ctx ys (seqFetch ctx xs db).2).2) := by
  intro xs
  induction xs with
  | nil => intro ys db; simp [seqFetch]
  | cons s ss ih => intro ys db; simp [seqFetch, ih]

/-- Soundness across a source sequence: the dedup store grows, and the
concatenated output satisfies the per-article invariant with pairwise
distinct fingerprints across source boundaries. -/
theorem seqFetch_spec (ctx : Ctx) :
    ∀ (l : List SourceInput) (db : Db),
      (∀ fp, fp ∈ db → fp ∈ (seqFetch ctx l db).2) ∧
      (∀ a ∈ (seqFetch ctx l db).1.flatten,
          ctx.minLen ≤ a.content.length ∧ ctx.hash a.content ∉ db ∧
          ctx.hash a.content ∈ (seqFetch ctx l db).2) ∧
      (seqFetch ctx l db).1.flatten.Pairwise
        (fun a b => ctx.hash a.content ≠ ctx.hash b.content) := by
  intro l
  induction l with
  | nil => intro db; simp [seqFetch]
  | cons s ss ih =>
    intro db
    obtain ⟨m1, a1, p1, l1⟩ := fetch_single_feed_spec ctx s.url s.outcome db
    obtain ⟨m2, a2, p2⟩ := ih (fetch_single_feed ctx s.url s.outcome db).2
    have hunf : seqFetch ctx (s :: ss) db =
        ((fetch_single_feed ctx s.url s.outcome db).1 ::
          (seqFetch ctx ss (fetch_single_feed ctx s.url s.outcome db).2).1,
         (seqFetch ctx ss (fetch_single_feed ctx s.url s.outcome db).2).2) := by
      simp [seqFetch]
    rw [hunf]
    refine ⟨?_, ?_, ?_⟩
    · intro fp hfp
      exact m2 fp (m1 fp hfp)
    · intro a ha
      simp only [List.flatten_cons, List.mem_append] at ha
      rcases ha with ha | ha
      · obtain ⟨q1, q2, q3⟩ := a1 a ha
        exact ⟨q1, q2, m2 _ q3⟩
      · obtain ⟨q1, q2, q3⟩ := a2 a ha
        exact ⟨q1, fun hin => q2 (m1 _ hin), q3⟩
    · simp only [List.flatten_cons]
      refine List.pairwise_append.mpr ⟨p1, p2, ?_⟩
      intro a ha b hb heq
      obtain ⟨_, _, q3⟩ := a1 a ha
      obtain ⟨_, q2b, _⟩ := a2 b hb
      exact q2b (heq ▸ q3)

/-- Chunked batch processing equals plain sequential processing of the
whole source list: batching (and the concurrent gather inside one batch)
changes pacing, not the article sequence or the final dedup store. -/
theorem batchLoop_eq_seqFetch (ctx : Ctx) (k : Nat) :
    ∀ (l : List SourceInput) (db : Db),
      (batchLoop ctx k l db).1 = (seqFetch ctx l db).1.flatten ∧
      (batchLoop ctx k l db).2.1 = (seqFetch ctx l db).2 := by
  intro l db
  induction l, db using batchLoop.induct ctx k with
  | case1 db => simp [batchLoop, seqFetch]
  | case2 s ss db rest hrest =>
    have hdrop : List.drop (k + 1) (s :: ss) = [] := List.isEmpty_iff.mp hrest
    have htake : List.take (k + 1) (s :: ss) = s :: ss := by
      have h2 := List.take_append_drop (k + 1) (s :: ss)
      rwa [hdrop, List.append_nil] at h2
    have hrest2 : (List.drop (k + 1) (s :: ss)).isEmpty = true := hrest
    have hlen : ss.length ≤ k := by simpa using hrest2
    rw [batchLoop]
    simp [hrest2, htake, hlen]
  | case3 s ss db b rest hrest ih =>
    have hrest2 : ¬ (List.drop (k + 1) (s :: ss)).isEmpty = true := hrest
    obtain ⟨ih1, ih2⟩ := ih
    have ih1b : (batchLoop ctx k (List.drop (k + 1) (s :: ss))
        (seqFetch ctx (List.take (k + 1) (s :: ss)) db).2).1 =
        (seqFetch ctx (List.drop (k + 1) (s :: ss))
          (seqFetch ctx (List.take (k + 1) (s :: ss)) db).2).1.flatten := ih1
    have ih2b : (batchLoop ctx k (List.drop (k + 1) (s :: ss))
        (seqFetch ctx (List.take (k + 1) (s :: ss)) db).2).2.1 =
        (seqFetch ctx (List.drop (k + 1) (s :: ss))
          (seqFetch ctx (List.take (k + 1) (s :: ss)) db).2).2 := ih2
    have hsplit := seqFetch_append ctx (List.take (k + 1) (s :: ss))
      (List.drop (k + 1) (s :: ss)) db
    rw [List.take_append_drop] at hsplit
    rw [batchLoop]
    simp only [List.take_succ_cons, List.drop_succ_cons] at ih1b ih2b hsplit hrest2 ⊢
    constructor
    · rw [hsplit]
      simp [hrest2, ih1b, List.flatten_append]
    · rw [hsplit]
      simp [hrest2, ih2b]

/-- The contiguous chunks cover the source list exactly, in order. -/
theorem batchesOf_flatten (k : Nat) :
    ∀ l : List SourceInput, (batchesOf k l).flatten = l := by
  intro l
  induction l using batchesOf.induct k with
  | case1 => simp [batchesOf]
  | case2 s ss ih =>
    rw [batchesOf]
    simp only [List.drop_succ_cons] at ih
    simp [ih]

/-- Every chunk holds at most `batch_size = k + 1` sources. -/
theorem batchesOf_length_le (k : Nat) :
    ∀ l : List SourceInput, ∀ b ∈ batchesOf k l, b.length ≤ k + 1 := by
  intro l
  induction l using batchesOf.induct k with
  | case1 => simp [batchesOf]
  | case2 s ss ih =>
    intro b hb
    rw [batchesOf] at hb
    rcases List.mem_cons.mp hb with rfl | hb2
    · simp [List.length_take]
    · exact ih b hb2

/-- The loop pauses exactly between consecutive batches: the number of
`asyncio.sleep` calls is one less than the number of batches (and zero when
there are no sources). -/
theorem batchLoop_pauses (ctx : Ctx) (k : Nat) :
    ∀ (l : List SourceInput) (db : Db),
      (batchLoop ctx k l db).2.2 = (batchesOf k l).length - 1 := by
  intro l db
  induction l, db using batchLoop.induct ctx k with
  | case1 db => simp [batchLoop, batchesOf]
  | case2 s ss db rest hrest =>
    have hrest2 : (List.drop (k + 1) (s :: ss)).isEmpty = true := hrest
    have hdrop : List.drop (k + 1) (s :: ss) = [] := List.isEmpty_iff.mp hrest
    have hdrop2 : List.drop k ss = [] := by simpa using hdrop
    have hlen : ss.length ≤ k := by simpa using hrest2
    rw [batchLoop, batchesOf]
    simp [hrest2, hlen, hdrop2, batchesOf]
  | case3 s ss db b rest hrest ih =>
    have hrest2 : ¬ (List.drop (k + 1) (s :: ss)).isEmpty = true := hrest
    have hne : List.drop (k + 1) (s :: ss) ≠ [] := by
      intro hd
      simp [hd] at hrest2
    have hbne : batchesOf k (List.drop (k + 1) (s :: ss)) ≠ [] := by
      cases hd : List.drop (k + 1) (s :: ss) with
      | nil => exact absurd hd hne
      | cons a as => simp [batchesOf]
    have hpos : 1 ≤ (batchesOf k (List.drop (k + 1) (s :: ss))).length :=
      List.length_pos.mpr hbne
    have ih2 : (batchLoop ctx k (List.drop (k + 1) (s :: ss))
        (seqFetch ctx (List.take (k + 1) (s :: ss)) db).2).2.2 =
        (batchesOf k (List.drop (k + 1) (s :: ss))).length - 1 := ih
    rw [batchLoop, batchesOf]
    simp only [List.take_succ_cons, List.drop_succ_cons] at ih2 hrest2 hpos ⊢
    simp [hrest2, ih2, List.length_cons]
    omega

/-- The batch output contains one article list per source. -/
theorem seqFetch_length (ctx : Ctx) :
    ∀ (l : List SourceInput) (db : Db),
      (seqFetch ctx l db).1.length = l.length := by
  intro l
  induction l with
  | nil => intro db; simp [seqFetch]
  | cons s ss ih => intro db; simp [seqFetch, ih]

/-! ### The claims -/

/-- C9: `parse_date` never raises: when the structured published-time tuple
is present, truthy, and well-formed, the timestamp parsed from its first
six fields is returned; on absence, a falsy value, or any `datetime`
constructor fault, the current wall-clock time `now` is returned instead
(the function is total by construction, the bare `except` having been
modelled by `mkDatetime`'s `none`). -/
theorem C9_parse_date_fallback (e : Entry) (now : DateTime) :
    (e.published_parsed = none → parse_date e now = now) ∧
    (e.published_parsed = some [] → parse_date e now = now) ∧
    (∀ t, e.published_parsed = some t → mkDatetime (t.take 6) = none →
      parse_date e now = now) ∧
    (∀ t dt, e.published_parsed = some t → t ≠ [] →
      mkDatetime (t.take 6) = some dt → parse_date e now = dt) := by
  refine ⟨?_, ?_, ?_, ?_⟩
  · intro h
    simp [parse_date, h]
  · intro h
    simp [parse_date, h]
  · intro t h hm
    by_cases ht : t.isEmpty
    · simp [parse_date, h, ht]
    · simp [parse_date, h, ht, hm]
  · intro t dt h ht hm
    have ht2 : t.isEmpty = false := by
      simpa [List.isEmpty_iff] using ht
    simp [parse_date, h, ht2, hm]

/-- C9 witness: a full nine-field `struct_time` tuple parses to its first
six fields; a tuple with month 13 falls back to `now`. -/
theorem C9_witness :
    parse_date dateEntry (DateTime.mk 2024 1 1 0 0 0) =
      DateTime.mk 2024 3 15 10 30 7 ∧
    parse_date badDateEntry (DateTime.mk 2024 1 1 0 0 0) =
      DateTime.mk 2024 1 1 0 0 0 :=
  ⟨(C9_parse_date_fallback dateEntry (DateTime.mk 2024 1 1 0 0 0)).2.2.2
      [2024, 3, 15, 10, 30, 7, 4, 75, 0] (DateTime.mk 2024 3 15 10 30 7)
      rfl (by decide) (by decide),
   (C9_parse_date_fallback badDateEntry (DateTime.mk 2024 1 1 0 0 0)).2.2.1
      [2024, 13, 15] rfl (by decide)⟩

/-- C5 counterexample: an entry whose `content` attribute is present but
holds an empty list, while a perfectly present summary follows.  The
claimed policy ("return the value of the first of the fields present and
non-absent, tags stripped") would return text, but `extract_content`
returns no text at all: `re.sub` receives the list itself and raises
`TypeError`, modelled as `Except.error ()`. -/
theorem C5_counterexample : extract_content e5 = Except.error () := rfl

/-- C5 (amended): for every entry whose `content` attribute, when present,
is a non-empty list, `extract_content` returns exactly the extraction the
spec prescribes (`specExtract`): the first present field among `content`,
`summary`, `description` — first match wins, no merging — tag-stripped and
whitespace-trimmed, and empty text when none of the three is present.
When `content` is present but empty, it raises instead (see C10). -/
theorem C5_extract_policy (e : Entry) (h : e.content ≠ some []) :
    extract_content e = Except.ok (specExtract e) := by
  cases hc : e.content with
  | none =>
    cases hs : e.summary with
    | some v => simp [extract_content, specExtract, hc, hs]
    | none =>
      cases hd : e.description with
      | some d => simp [extract_content, specExtract, hc, hs, hd]
      | none => simp [extract_content, specExtract, hc, hs, hd]
  | some l =>
    cases l with
    | nil => exact absurd hc h
    | cons v vs => simp [extract_content, specExtract, hc]

/-- C5 witness: the amended policy at a description-only entry. -/
theorem C5_witness :
    extract_content descEntry = Except.ok (specExtract descEntry) :=
  C5_extract_policy descEntry (by decide)

/-- C6: the length filter.  An entry whose tag-stripped content is shorter
than `min_article_length` contributes nothing — processing it equals
skipping it (and it is not counted against the cap); an entry whose
stripped content length is exactly `min_article_length`, when not a
duplicate and with the cap not yet reached, is accepted in front of the
remaining entries' results; and every article a source outputs has content
length at least `min_article_length`, so a short entry never appears. -/
theorem C6_length_filter (ctx : Ctx) (u : Str) (f : Feed) (e : Entry)
    (es : List Entry) (n : Nat) (db : Db) (c : Str)
    (hc : extract_content e = Except.ok c) :
    (c.length < ctx.minLen →
      procEntries ctx u f (e :: es) n db = procEntries ctx u f es n db) ∧
    (c.length = ctx.minLen → is_duplicate db (ctx.hash c) = false →
      n < ctx.maxArticles →
      procEntries ctx u f (e :: es) n db =
        ((procEntries ctx u f es (n + 1) (cache_article db (ctx.hash c))).1.map
            (fun arts => mkArticle ctx u f e c :: arts),
         (procEntries ctx u f es (n + 1) (cache_article db (ctx.hash c))).2)) ∧
    (∀ o arts db2, fetch_single_feed ctx u o db = (arts, db2) →
      ∀ a ∈ arts, ctx.minLen ≤ a.content.length) := by
  refine ⟨?_, ?_, ?_⟩
  · intro hlen
    by_cases hcap : ctx.maxArticles ≤ n
    · rw [procEntries_stop ctx u f _ n db hcap,
        procEntries_stop ctx u f es n db hcap]
    · simp [procEntries, hcap, hc, hlen]
  · intro hlen hdup hcap
    have hcap2 : ¬ ctx.maxArticles ≤ n := Nat.not_le.mpr hcap
    have hlt : ¬ c.length < ctx.minLen := by omega
    rcases hr : procEntries ctx u f es (n + 1) (cache_article db (ctx.hash c))
      with ⟨r, dbr, nr⟩
    cases r with
    | ok arts => simp [procEntries, hcap2, hc, hlt, hdup, hr, Except.map]
    | error u' => simp [procEntries, hcap2, hc, hlt, hdup, hr, Except.map]
  · intro o arts db2 hfo a ha
    obtain ⟨_, asound, _, _⟩ := fetch_single_feed_spec ctx u o db
    rw [hfo] at asound
    exact (asound a ha).1

/-- C6 witness: content of length exactly 5 (`min_article_length`) after
tag stripping, fresh store, empty cap usage. -/
theorem C6_witness :
    ((("12345".toList : Str).length < ctx0.minLen →
      procEntries ctx0 u0 feedA (boundaryEntry :: [goodEntryB]) 0 [] =
        procEntries ctx0 u0 feedA [goodEntryB] 0 []) ∧
    (("12345".toList : Str).length = ctx0.minLen →
      is_duplicate [] (ctx0.hash ("12345".toList)) = false →
      0 < ctx0.maxArticles →
      procEntries ctx0 u0 feedA (boundaryEntry :: [goodEntryB]) 0 [] =
        ((procEntries ctx0 u0 feedA [goodEntryB] 1
            (cache_article [] (ctx0.hash ("12345".toList)))).1.map
            (fun arts =>
              mkArticle ctx0 u0 feedA boundaryEntry ("12345".toList) :: arts),
         (procEntries ctx0 u0 feedA [goodEntryB] 1
            (cache_article [] (ctx0.hash ("12345".toList)))).2)) ∧
    (∀ o arts db2, fetch_single_feed ctx0 u0 o [] = (arts, db2) →
      ∀ a ∈ arts, ctx0.minLen ≤ a.content.length)) :=
  C6_length_filter ctx0 u0 feedA boundaryEntry [goodEntryB] 0 []
    ("12345".toList) rfl

/-- C10: an entry whose `content` attribute is an empty list makes
`extract_content` raise (`re.sub` applied to the list raises `TypeError`),
and the general handler of `fetch_single_feed` turns that into an empty
result for the whole source: every article of the same document — earlier
or later — is discarded for this cycle, while fingerprints recorded before
the fault stay recorded. -/
theorem C10_empty_content_poisons_source (ctx : Ctx) (u : Str) (f : Feed)
    (db : Db) (es₁ es₂ : List Entry) (e : Entry)
    (hf : f.entries = es₁ ++ e :: es₂) (he : e.content = some [])
    (arts₁ : List Article) (db₁ : Db) (n₁ : Nat)
    (h₁ : procEntries ctx u f es₁ 0 db = (Except.ok arts₁, db₁, n₁))
    (hn : n₁ < ctx.maxArticles) :
    extract_content e = Except.error () ∧
    fetch_single_feed ctx u (Except.ok f) db = ([], db₁) := by
  have hex : extract_content e = Except.error () := by
    simp [extract_content, he]
  refine ⟨hex, ?_⟩
  have hstep : procEntries ctx u f (e :: es₂) n₁ db₁ =
      (Except.error (), db₁, n₁) := by
    simp [procEntries, Nat.not_le.mpr hn, hex]
  have happ := procEntries_append ctx u f es₁ (e :: es₂) 0 db
  rw [h₁] at happ
  simp only [] at happ
  rw [hstep] at happ
  simp only [] at happ
  simp [fetch_single_feed, hf, happ]

/-- C10 witness: a poisoned feed `[good, poison, good]` contributes zero
articles, and the fingerprint of the first accepted-then-discarded article
remains recorded. -/
theorem C10_witness :
    extract_content poisonEntry = Except.error () ∧
    fetch_single_feed ctx0 u0 (Except.ok poisonFeed) [] =
      ([], [sampleHash ("Hello world".toList)]) :=
  C10_empty_content_poisons_source ctx0 u0 poisonFeed [] [goodEntryA]
    [goodEntryB] poisonEntry rfl rfl _ _ _ rfl (by decide)

/-- C3: the accepted-count cap.  A source never returns more than
`max_articles_per_feed` articles, and once the loop's accepted count has
reached the cap, appending any further entries changes nothing: they are
never evaluated — not extracted, length-checked, fingerprinted, or
recorded (the output, the dedup store, and the count are all unchanged).
Together with `procEntries_sublist` (document order) this pins the
accepted articles to the first qualifying entries. -/
theorem C3_cap (ctx : Ctx) (u : Str) (f : Feed) (db0 : Db)
    (es₁ es₂ : List Entry) (n : Nat) (db : Db)
    (hcap : ctx.maxArticles ≤ (procEntries ctx u f es₁ n db).2.2) :
    (fetch_single_feed ctx u (Except.ok f) db0).1.length ≤ ctx.maxArticles ∧
    procEntries ctx u f (es₁ ++ es₂) n db = procEntries ctx u f es₁ n db := by
  obtain ⟨_, _, _, hlen⟩ := fetch_single_feed_spec ctx u (Except.ok f) db0
  refine ⟨hlen, ?_⟩
  rcases hr : procEntries ctx u f es₁ n db with ⟨r, db₁, n₁⟩
  rw [hr] at hcap
  rw [procEntries_append, hr]
  cases r with
  | error u' => simp
  | ok as =>
    simp only []
    rw [procEntries_stop ctx u f es₂ n₁ db₁ hcap]
    simp

/-- C3 witness: cap 2 is reached after two good entries; a trailing block
containing even a raising entry (`poisonEntry`) is never evaluated. -/
theorem C3_witness :
    (fetch_single_feed ctx0 u0 (Except.ok feedA) []).1.length ≤
      ctx0.maxArticles ∧
    procEntries ctx0 u0 feedA
        ([goodEntryA, goodEntryB] ++ [poisonEntry, goodEntryC]) 0 [] =
      procEntries ctx0 u0 feedA [goodEntryA, goodEntryB] 0 [] :=
  C3_cap ctx0 u0 feedA [] [goodEntryA, goodEntryB] [poisonEntry, goodEntryC]
    0 [] (by decide)

/-- C1: every Article in the sequence returned by `fetch_feeds_batch` has
content of length at least `min_article_length` and a content fingerprint
unseen at the moment of its acceptance: no output fingerprint was in the
store when the run began, and no two output articles share a fingerprint
(each acceptance records its fingerprint before any later entry is
checked). -/
theorem C1_articles_sound (ctx : Ctx) (k : Nat) (l : List SourceInput)
    (db : Db) (arts : List Article) (db' : Db) (p : Nat)
    (h : fetch_feeds_batch ctx l (k + 1) db = some (arts, db', p)) :
    (∀ a ∈ arts, ctx.minLen ≤ a.content.length ∧ ctx.hash a.content ∉ db) ∧
    arts.Pairwise (fun a b => ctx.hash a.content ≠ ctx.hash b.content) := by
  have hb : batchLoop ctx k l db = (arts, db', p) := by
    simpa [fetch_feeds_batch] using h
  obtain ⟨h1, h2⟩ := batchLoop_eq_seqFetch ctx k l db
  obtain ⟨m, asound, pw⟩ := seqFetch_spec ctx l db
  have harts : arts = (seqFetch ctx l db).1.flatten := by rw [← h1, hb]
  subst harts
  constructor
  · intro a ha
    obtain ⟨q1, q2, _⟩ := asound a ha
    exact ⟨q1, q2⟩
  · exact pw

/-- C1 witness: two sources (a short entry, duplicates within and across
sources) against an empty store. -/
theorem C1_witness :
    (∀ a ∈ (batchLoop ctx0 0 [srcA, srcB] []).1,
        ctx0.minLen ≤ a.content.length ∧ ctx0.hash a.content ∉ ([] : Db)) ∧
    (batchLoop ctx0 0 [srcA, srcB] []).1.Pairwise
      (fun a b => ctx0.hash a.content ≠ ctx0.hash b.content) :=
  C1_articles_sound ctx0 0 [srcA, srcB] [] _ _ _ rfl

/-- C2: within one run, entries with byte-identical extracted content are
accepted at most once: the output of `fetch_feeds_batch` has pairwise
distinct contents (a later identical-content entry, in the same or a later
source, is rejected by the duplicate check, which runs before any
recording); each accepted fingerprint is recorded — immediately upon
acceptance, hence present in the final store — and recorded fingerprints
are never dropped. -/
theorem C2_no_duplicate_content (ctx : Ctx) (k : Nat) (l : List SourceInput)
    (db : Db) (arts : List Article) (db' : Db) (p : Nat)
    (h : fetch_feeds_batch ctx l (k + 1) db = some (arts, db', p)) :
    arts.Pairwise (fun a b => a.content ≠ b.content) ∧
    (∀ a ∈ arts, ctx.hash a.content ∈ db') ∧
    (∀ fp ∈ db, fp ∈ db') := by
  have hb : batchLoop ctx k l db = (arts, db', p) := by
    simpa [fetch_feeds_batch] using h
  obtain ⟨h1, h2⟩ := batchLoop_eq_seqFetch ctx k l db
  obtain ⟨m, asound, pw⟩ := seqFetch_spec ctx l db
  have harts : arts = (seqFetch ctx l db).1.flatten := by rw [← h1, hb]
  have hdb : db' = (seqFetch ctx l db).2 := by rw [← h2, hb]
  subst harts
  subst hdb
  refine ⟨?_, ?_, m⟩
  · exact pw.imp (fun hne heq => hne (congrArg ctx.hash heq))
  · intro a ha
    exact (asound a ha).2.2

/-- C2 witness: `srcA` and `srcB` both carry the content
`Hello world`; the run against a store already holding fingerprint 7. -/
theorem C2_witness :
    (batchLoop ctx0 0 [srcA, srcB] [7]).1.Pairwise
      (fun a b => a.content ≠ b.content) ∧
    (∀ a ∈ (batchLoop ctx0 0 [srcA, srcB] [7]).1,
        ctx0.hash a.content ∈ (batchLoop ctx0 0 [srcA, srcB] [7]).2.1) ∧
    (∀ fp ∈ ([7] : Db), fp ∈ (batchLoop ctx0 0 [srcA, srcB] [7]).2.1) :=
  C2_no_duplicate_content ctx0 0 [srcA, srcB] [7] _ _ _ rfl

/-- C4: failure isolation.  A source whose fetch fails returns the empty
sequence with the dedup store untouched (both handlers return `[]`; raising
never escapes, the model being total), and deleting a failing source from
the input changes neither the articles nor the final store of the whole
batch run — sibling sources still contribute exactly their articles. -/
theorem C4_failure_isolated (ctx : Ctx) (u : Str) (err : FetchErr) (db : Db)
    (k : Nat) (xs ys : List SourceInput) (bad : SourceInput)
    (hbad : bad.outcome = Except.error err) :
    fetch_single_feed ctx u (Except.error err) db = ([], db) ∧
    (fetch_feeds_batch ctx (xs ++ bad :: ys) (k + 1) db).map
        (fun r => (r.1, r.2.1)) =
      (fetch_feeds_batch ctx (xs ++ ys) (k + 1) db).map
        (fun r => (r.1, r.2.1)) := by
  refine ⟨rfl, ?_⟩
  obtain ⟨hA1, hA2⟩ := batchLoop_eq_seqFetch ctx k (xs ++ bad :: ys) db
  obtain ⟨hB1, hB2⟩ := batchLoop_eq_seqFetch ctx k (xs ++ ys) db
  have hbadstep : ∀ dbx, seqFetch ctx (bad :: ys) dbx =
      ([] :: (seqFetch ctx ys dbx).1, (seqFetch ctx ys dbx).2) := by
    intro dbx
    simp [seqFetch, hbad, fetch_single_feed]
  have hsA := seqFetch_append ctx xs (bad :: ys) db
  have hsB := seqFetch_append ctx xs ys db
  rw [hbadstep] at hsA
  have hfst : (batchLoop ctx k (xs ++ bad :: ys) db).1 =
      (batchLoop ctx k (xs ++ ys) db).1 := by
    rw [hA1, hB1, hsA, hsB]
    simp [List.flatten_append]
  have hsnd : (batchLoop ctx k (xs ++ bad :: ys) db).2.1 =
      (batchLoop ctx k (xs ++ ys) db).2.1 := by
    rw [hA2, hB2, hsA, hsB]
  simp [fetch_feeds_batch, hfst, hsnd]

/-- C4 witness: a failing source placed between two healthy sources in one
batch of size 1. -/
theorem C4_witness :
    fetch_single_feed ctx0 u0 (Except.error FetchErr.clientError)
        ([] : Db) = ([], []) ∧
    (fetch_feeds_batch ctx0 ([srcA] ++ srcErr :: [srcB]) 1 []).map
        (fun r => (r.1, r.2.1)) =
      (fetch_feeds_batch ctx0 ([srcA] ++ [srcB]) 1 []).map
        (fun r => (r.1, r.2.1)) :=
  C4_failure_isolated ctx0 u0 FetchErr.clientError [] 0 [srcA] [srcB]
    srcErr rfl

/-- C7: ordering.  The batch output is the concatenation, in input source
order, of the per-source article lists (one list per source, so batch
order then within-batch source order are both preserved; the cooperative
gather affects timing only), and within one source the articles follow
entry document order minus skipped entries: they form a sublist of the
per-entry candidates. -/
theorem C7_ordering (ctx : Ctx) (k : Nat) (l : List SourceInput) (db : Db)
    (arts : List Article) (db' : Db) (p : Nat)
    (h : fetch_feeds_batch ctx l (k + 1) db = some (arts, db', p)) :
    arts = ((seqFetch ctx l db).1).flatten ∧
    ((seqFetch ctx l db).1).length = l.length ∧
    (∀ u2 f2 db2, ((fetch_single_feed ctx u2 (Except.ok f2) db2).1).Sublist
        (f2.entries.filterMap (entryArticle ctx u2 f2))) := by
  have hb : batchLoop ctx k l db = (arts, db', p) := by
    simpa [fetch_feeds_batch] using h
  obtain ⟨h1, _⟩ := batchLoop_eq_seqFetch ctx k l db
  refine ⟨by rw [← h1, hb], seqFetch_length ctx l db, ?_⟩
  intro u2 f2 db2
  rcases hr : procEntries ctx u2 f2 f2.entries 0 db2 with ⟨r, dbr, nr⟩
  cases r with
  | ok as =>
    have heq : fetch_single_feed ctx u2 (Except.ok f2) db2 = (as, dbr) := by
      simp [fetch_single_feed, hr]
    rw [heq]
    exact procEntries_sublist ctx u2 f2 f2.entries 0 db2 as dbr nr hr
  | error u' =>
    have heq : fetch_single_feed ctx u2 (Except.ok f2) db2 = ([], dbr) := by
      simp [fetch_single_feed, hr]
    rw [heq]
    simp

/-- C7 witness: three sources (two healthy, one failing) under batch size
2. -/
theorem C7_witness :
    (batchLoop ctx0 1 [srcA, srcErr, srcB] []).1 =
      ((seqFetch ctx0 [srcA, srcErr, srcB] []).1).flatten ∧
    ((seqFetch ctx0 [srcA, srcErr, srcB] []).1).length =
      ([srcA, srcErr, srcB] : List SourceInput).length ∧
    (∀ u2 f2 db2, ((fetch_single_feed ctx0 u2 (Except.ok f2) db2).1).Sublist
        (f2.entries.filterMap (entryArticle ctx0 u2 f2))) :=
  C7_ordering ctx0 1 [srcA, srcErr, srcB] [] _ _ _ rfl

/-- C8: batching.  The source list is partitioned into contiguous batches
of at most `batch_size`, preserving order (their concatenation is the
input), and the run pauses exactly once between consecutive batches and
never after the final one: the pause count is the number of batches minus
one. -/
theorem C8_batching (ctx : Ctx) (k : Nat) (l : List SourceInput) (db : Db) :
    (batchesOf k l).flatten = l ∧
    (∀ b ∈ batchesOf k l, b.length ≤ k + 1) ∧
    fetch_feeds_batch ctx l (k + 1) db =
      some ((seqFetch ctx l db).1.flatten, (seqFetch ctx l db).2,
        (batchesOf k l).length - 1) := by
  refine ⟨batchesOf_flatten k l, batchesOf_length_le k l, ?_⟩
  obtain ⟨h1, h2⟩ := batchLoop_eq_seqFetch ctx k l db
  have h3 := batchLoop_pauses ctx k l db
  simp only [fetch_feeds_batch, Option.some.injEq]
  rcases hb : batchLoop ctx k l db with ⟨a, b2, c⟩
  rw [hb] at h1 h2 h3
  simp only [] at h1 h2 h3
  rw [Prod.mk.injEq, Prod.mk.injEq]
  exact ⟨h1, h2, h3⟩

/-- C8 witness: the spec's scenario — seven sources with batch size 5
yield two batches of sizes 5 and 2 and exactly one pause. -/
theorem C8_witness :
    (batchesOf 4 srcs7).map List.length = [5, 2] ∧
    ((batchesOf 4 srcs7).flatten = srcs7 ∧
    (∀ b ∈ batchesOf 4 srcs7, b.length ≤ 5) ∧
    fetch_feeds_batch ctx0 srcs7 5 [] =
      some ((seqFetch ctx0 srcs7 []).1.flatten, (seqFetch ctx0 srcs7 []).2,
        (batchesOf 4 srcs7).length - 1)) :=
  ⟨by simp [batchesOf, srcs7], C8_batching ctx0 4 srcs7 []⟩

end Fetcher
